import Mathlib

/-!
Shallow embedding of `src/assistant/utils.py` (ollama-deep-researcher).

The Python module has three functions:
* `deduplicate_and_format_sources(search_response, max_tokens_per_source,
  include_raw_content=True)` — deduplicates search-result dicts by URL and
  renders them into a "Sources:" report;
* `format_sources(search_results)` — bullet list `* title : url`;
* `searxng_search(query, include_raw_content=True, max_results=3)` — a thin
  wrapper over the external `SearxSearchWrapper` client.

A Python search-result dict is modelled as a record of optional fields: a
field being `none` models the key being absent from the dict.  The
`raw_content` key can be present with the JSON value `null` (Python `None`),
which is distinct from the key being absent, so that field is
`Option (Option String)`: outer `none` = key absent, `some none` = key
present but null, `some (some s)` = key present with string `s`.

A `KeyError` raised by `d["k"]` on a missing key is modelled by
`Except.error ("KeyError: " ++ k)`.  Python's `print` of a warning is
modelled by collecting the warning strings in a list.  In-place mutation of
the input dicts (`source["url"] = source["link"]` etc.) is modelled by
returning the list of post-call records alongside the formatted text.
Python's `dict` preserves insertion order, so `unique_sources` is an
association list to which new keys are appended at the end.
-/

structure SourceRecord where
  title : Option String
  link : Option String
  snippet : Option String
  url : Option String
  content : Option String
  raw_content : Option (Option String)
  deriving DecidableEq, Repr

/-- Dict lookup `d["k"]`: raises `KeyError` when the key is absent. -/
def getKey {α : Type} (v : Option α) (k : String) : Except String α :=
  match v with
  | some x => Except.ok x
  | none => Except.error ("KeyError: " ++ k)

/-- The field writes the first loop of `deduplicate_and_format_sources`
performs on every record it visits: `source["url"] = source["link"]` and
`source["content"] = source["snippet"]`.  (On records whose lookups succeed,
the stored values are exactly the `link` and `snippet` values.) -/
def mutateRecord (r : SourceRecord) : SourceRecord :=
  { r with url := r.link, content := r.snippet }

/-- The first loop of `deduplicate_and_format_sources`: for each source, set
`source["url"] = source["link"]` and `source["content"] = source["snippet"]`
(raising `KeyError` if `link` or `snippet` is missing), then insert the
record into `unique_sources` keyed by its url unless the key is already
present.  Returns the mutated records (in input order) and the final
`unique_sources` association list (in insertion order). -/
def dedupLoop : List SourceRecord → List (String × SourceRecord) →
    Except String (List SourceRecord × List (String × SourceRecord))
  | [], uniq => Except.ok ([], uniq)
  | r :: rest, uniq =>
    match getKey r.link "link" with
    | Except.error e => Except.error e
    | Except.ok lk =>
      let r1 := { r with url := some lk }
      match getKey r1.snippet "snippet" with
      | Except.error e => Except.error e
      | Except.ok sn =>
        let r2 := { r1 with content := some sn }
        let uniq2 := if (uniq.lookup lk).isSome then uniq else uniq ++ [(lk, r2)]
        match dedupLoop rest uniq2 with
        | Except.error e => Except.error e
        | Except.ok (recs, uf) => Except.ok (r2 :: recs, uf)

/-- The three header lines of a block: title, URL and snippet. -/
def blockBase (t u c : String) : String :=
  "Source " ++ t ++ ":\n===\n" ++ "URL: " ++ u ++ "\n===\n" ++
    "Most relevant content from source: " ++ c ++ "\n===\n"

/-- Evaluation of `raw_content = source.get("raw_content", "")` followed by the
`if raw_content is None` replacement: the resulting string together with the
warnings printed.  Key absent → default `""`, no warning; key present but
`None` → `""` plus a warning naming the URL; otherwise the stored string. -/
def rawGot (u : String) : Option (Option String) → String × List String
  | none => ("", [])
  | some none => ("", ["Warning: No raw_content found for source " ++ u])
  | some (some s) => (s, [])

/-- Truncation `if len(raw_content) > char_limit: raw_content =
raw_content[:char_limit] + "... [truncated]"` — the slice keeps the first
`char_limit` characters. -/
def truncateRaw (char_limit : Nat) (s : String) : String :=
  if s.length > char_limit then String.mk (s.data.take char_limit) ++ "... [truncated]"
  else s

/-- The body of the second loop of `deduplicate_and_format_sources`: the text
appended to `formatted_text` for one retained source, together with the
warnings printed while producing it.  The loop index `i` from `enumerate` is
unused by the Python body and is omitted. -/
def formatBlock (max_tokens_per_source : Nat) (include_raw_content : Bool)
    (source : SourceRecord) : Except String (String × List String) :=
  match getKey source.title "title" with
  | Except.error e => Except.error e
  | Except.ok t =>
    match getKey source.url "url" with
    | Except.error e => Except.error e
    | Except.ok u =>
      match getKey source.content "content" with
      | Except.error e => Except.error e
      | Except.ok c =>
        if include_raw_content then
          let char_limit := max_tokens_per_source * 4
          let got := rawGot u source.raw_content
          let rc := truncateRaw char_limit got.1
          Except.ok (blockBase t u c ++ "Full source content limited to " ++
            toString max_tokens_per_source ++ " tokens: " ++ rc ++ "\n\n", got.2)
        else
          Except.ok (blockBase t u c, [])

/-- The second loop of `deduplicate_and_format_sources`: concatenation of the
blocks for the retained sources, in order, with the warnings printed. -/
def buildFormattedText (max_tokens_per_source : Nat) (include_raw_content : Bool) :
    List SourceRecord → Except String (String × List String)
  | [] => Except.ok ("", [])
  | s :: rest =>
    match formatBlock max_tokens_per_source include_raw_content s with
    | Except.error e => Except.error e
    | Except.ok (b, w) =>
      match buildFormattedText max_tokens_per_source include_raw_content rest with
      | Except.error e => Except.error e
      | Except.ok (t2, w2) => Except.ok (b ++ t2, w ++ w2)

/-- Python `str.isspace` characters relevant to `str.strip` (ASCII range). -/
def pyIsSpace (c : Char) : Bool :=
  c = ' ' || c = '\t' || c = '\n' || c = '\r' || c = Char.ofNat 11 || c = Char.ofNat 12

/-- Python `str.strip()`: remove leading and trailing whitespace. -/
def pyStrip (s : String) : String :=
  String.mk ((((s.data.dropWhile pyIsSpace).reverse).dropWhile pyIsSpace).reverse)

/-- The value of a call to `deduplicate_and_format_sources`: the returned
string, the warnings printed to stdout, and the input records as they stand
after the call (the function mutates them in place). -/
structure FormatResult where
  text : String
  warnings : List String
  records : List SourceRecord
  deriving DecidableEq, Repr

/-- The function `deduplicate_and_format_sources(search_response,
max_tokens_per_source, include_raw_content)`. -/
def deduplicate_and_format_sources (search_response : List SourceRecord)
    (max_tokens_per_source : Nat) (include_raw_content : Bool := true) :
    Except String FormatResult :=
  match dedupLoop search_response [] with
  | Except.error e => Except.error e
  | Except.ok (recs, uniq) =>
    match buildFormattedText max_tokens_per_source include_raw_content
        (uniq.map Prod.snd) with
    | Except.error e => Except.error e
    | Except.ok (blocks, warns) =>
      Except.ok ⟨pyStrip ("Sources:\n\n" ++ blocks), warns, recs⟩

/-- The lines of `format_sources`: `f"* {source['title']} : {source['url']}"`
for each source, with a `KeyError` if a key is missing. -/
def bulletLines : List SourceRecord → Except String (List String)
  | [] => Except.ok []
  | source :: rest =>
    match getKey source.title "title" with
    | Except.error e => Except.error e
    | Except.ok t =>
      match getKey source.url "url" with
      | Except.error e => Except.error e
      | Except.ok u =>
        match bulletLines rest with
        | Except.error e => Except.error e
        | Except.ok ls => Except.ok (("* " ++ t ++ " : " ++ u) :: ls)

/-- The function `format_sources(search_results)`: `"\n".join(...)` over the
bullet lines. -/
def format_sources (search_results : List SourceRecord) : Except String String :=
  match bulletLines search_results with
  | Except.error e => Except.error e
  | Except.ok lines => Except.ok (String.intercalate "\n" lines)

/-- Errors of the external search backend (spec taxonomy `SearchBackendError`). -/
structure SearchBackendError where
  message : String
  deriving DecidableEq, Repr

/-- The configuration passed to `SearxSearchWrapper(...)`. -/
structure SearxConfig where
  searx_host : String
  unsecure : Bool
  k : Nat
  engines : List String
  deriving DecidableEq, Repr

/-- A record returned by the search backend. -/
structure SearchHit where
  title : String
  url : String
  content : String
  raw_content : Option String
  deriving DecidableEq, Repr

/-- The function `searxng_search(query, include_raw_content=True,
max_results=3)`.  The
external collaborator `SearxSearchWrapper.results` is modelled as an oracle
parameter taking the wrapper configuration, the query, `num_results`,
`include_raw_content`, and an attempt index; the Python code performs exactly
one call (attempt `0`) and returns its value unchanged — no retry, no
fallback, no re-ranking. -/
def searxng_search
    (results : SearxConfig → String → Nat → Bool → Nat →
      Except SearchBackendError (List SearchHit))
    (query : String) (include_raw_content : Bool := true) (max_results : Nat := 3) :
    Except SearchBackendError (List SearchHit) :=
  let searx_search : SearxConfig :=
    { searx_host := "http://127.0.0.1:8080"
      unsecure := true
      k := max_results
      engines := ["google"] }
  results searx_search query max_results include_raw_content 0

/-- First-seen order of a list of URLs, as the spec describes deduplication:
keep each URL at the position of its first occurrence, drop later duplicates. -/
def firstSeenOrder (urls : List String) : List String :=
  urls.foldl (fun acc u => if u ∈ acc then acc else acc ++ [u]) []

/-- The spec's description of `bulletSources`: one line per record in input
order, each `* {title} : {url}`, joined by newlines. -/
def bulletLinesJoin : List (String × String) → String
  | [] => ""
  | [(t, u)] => "* " ++ t ++ " : " ++ u
  | (t, u) :: rest => "* " ++ t ++ " : " ++ u ++ "\n" ++ bulletLinesJoin rest

/-- C10: for the empty input list, `deduplicate_and_format_sources` returns
exactly the banner `"Sources:"` with its trailing newlines stripped, for
every `max_tokens_per_source` and `include_raw_content`. -/
theorem c10_empty_input_banner (max_tokens_per_source : Nat)
    (include_raw_content : Bool) :
    (deduplicate_and_format_sources [] max_tokens_per_source
      include_raw_content).map FormatResult.text = Except.ok "Sources:" := by
  rfl

theorem getKey_some {α : Type} (x : α) (k : String) : getKey (some x) k = Except.ok x := rfl

theorem getKey_none {α : Type} (k : String) :
    getKey (none : Option α) k = Except.error ("KeyError: " ++ k) := rfl

theorem mutateRecord_title (r : SourceRecord) : (mutateRecord r).title = r.title := rfl

theorem mutateRecord_raw (r : SourceRecord) : (mutateRecord r).raw_content = r.raw_content := rfl

/-- One successful step of the dedup loop, expressed with `mutateRecord`. -/
theorem dedupLoop_cons_ok (r : SourceRecord) (rest : List SourceRecord)
    (uniq : List (String × SourceRecord)) (lk sn : String)
    (hl : r.link = some lk) (hs : r.snippet = some sn) :
    dedupLoop (r :: rest) uniq =
      match dedupLoop rest (if (List.lookup lk uniq).isSome then uniq
          else uniq ++ [(lk, mutateRecord r)]) with
      | Except.error e => Except.error e
      | Except.ok (recs, uf) => Except.ok (mutateRecord r :: recs, uf) := by
  cases r
  simp_all [dedupLoop, getKey, mutateRecord]

/-- Inversion of one successful step of the dedup loop. -/
theorem dedupLoop_cons_inv (r : SourceRecord) (rest : List SourceRecord)
    (uniq : List (String × SourceRecord))
    (out : List SourceRecord × List (String × SourceRecord))
    (h : dedupLoop (r :: rest) uniq = Except.ok out) :
    ∃ lk sn recs, r.link = some lk ∧ r.snippet = some sn ∧
      dedupLoop rest (if (List.lookup lk uniq).isSome then uniq
        else uniq ++ [(lk, mutateRecord r)]) = Except.ok (recs, out.2) ∧
      out.1 = mutateRecord r :: recs := by
  cases hl : r.link with
  | none => cases r; simp_all [dedupLoop, getKey]
  | some lk =>
    cases hs : r.snippet with
    | none => cases r; simp_all [dedupLoop, getKey]
    | some sn =>
      rw [dedupLoop_cons_ok r rest uniq lk sn hl hs] at h
      cases hrec : dedupLoop rest (if (List.lookup lk uniq).isSome then uniq
          else uniq ++ [(lk, mutateRecord r)]) with
      | error e => rw [hrec] at h; cases h
      | ok p =>
        obtain ⟨recs, uf⟩ := p
        rw [hrec] at h
        have hout : out = (mutateRecord r :: recs, uf) := (Except.ok.inj h).symm
        refine ⟨lk, sn, recs, rfl, rfl, ?_, ?_⟩
        · rw [hout]
          exact hrec
        · rw [hout]

/-- The mutated-record component of the dedup loop is the input list with the
two field writes applied to every record. -/
theorem dedupLoop_records (rs : List SourceRecord) :
    ∀ (uniq : List (String × SourceRecord)) (a : List SourceRecord)
      (uf : List (String × SourceRecord)),
      dedupLoop rs uniq = Except.ok (a, uf) → a = rs.map mutateRecord := by
  induction rs with
  | nil =>
    intro uniq a uf h
    simp [dedupLoop] at h
    simp [h.1]
  | cons r rest ih =>
    intro uniq a uf h
    obtain ⟨lk, sn, recs, hl, hs, hrec, hout⟩ := dedupLoop_cons_inv r rest uniq (a, uf) h
    have hrecs := ih _ _ _ hrec
    simp only [List.map_cons]
    exact hout.trans (by rw [hrecs])

/-- C4 counterexample: `deduplicate_and_format_sources` does not leave its
input records unchanged — a record entering with no `url` and no `content`
key comes out with both keys written. -/
theorem c4_counterexample :
    (deduplicate_and_format_sources
        [⟨some "T4", some "u4", some "s4", none, none, none⟩] 1 true).toOption.map
      FormatResult.records ≠
      some [⟨some "T4", some "u4", some "s4", none, none, none⟩] := by decide

/-- C4 amended: the records after a successful call are exactly the input
records with `url := link` and `content := snippet` written on every record
(retained or dropped); all other fields are unchanged. -/
theorem c4_amended_mutation (rs : List SourceRecord) (m : Nat) (irc : Bool)
    (res : FormatResult)
    (hok : deduplicate_and_format_sources rs m irc = Except.ok res) :
    res.records = rs.map mutateRecord := by
  unfold deduplicate_and_format_sources at hok
  split at hok
  · cases hok
  · split at hok
    · cases hok
    · cases hok
      simp only []
      exact dedupLoop_records rs _ _ _ (by assumption)

/-- Closed instance of `c4_amended_mutation` at a one-record input. -/
theorem c4_amended_mutation_witness :
    FormatResult.records
        ⟨"Sources:\n\nSource Tw:\n===\nURL: uw\n===\nMost relevant content from source: sw\n===\nFull source content limited to 2 tokens:",
          [], [⟨some "Tw", some "uw", some "sw", some "uw", some "sw", none⟩]⟩ =
      [(⟨some "Tw", some "uw", some "sw", none, none, none⟩ : SourceRecord)].map
        mutateRecord :=
  c4_amended_mutation [⟨some "Tw", some "uw", some "sw", none, none, none⟩] 2 true
    ⟨"Sources:\n\nSource Tw:\n===\nURL: uw\n===\nMost relevant content from source: sw\n===\nFull source content limited to 2 tokens:",
      [], [⟨some "Tw", some "uw", some "sw", some "uw", some "sw", none⟩]⟩ (by rfl)

/-- C8: the Python body performs exactly one backend call (attempt 0) and
returns its value unchanged: a backend error surfaces to the caller as the
`SearchBackendError` of that single attempt, even when a second attempt
would have succeeded (no retry, no fallback), and a backend success is
returned without local re-ranking. -/
theorem c8_search_error_surface
    (results : SearxConfig → String → Nat → Bool → Nat →
      Except SearchBackendError (List SearchHit))
    (query : String) (include_raw_content : Bool) (max_results : Nat) :
    (∀ (e : SearchBackendError) (later : List SearchHit),
      results ⟨"http://127.0.0.1:8080", true, max_results, ["google"]⟩ query
          max_results include_raw_content 0 = Except.error e →
      results ⟨"http://127.0.0.1:8080", true, max_results, ["google"]⟩ query
          max_results include_raw_content 1 = Except.ok later →
      searxng_search results query include_raw_content max_results = Except.error e) ∧
    (∀ rs, results ⟨"http://127.0.0.1:8080", true, max_results, ["google"]⟩ query
          max_results include_raw_content 0 = Except.ok rs →
      searxng_search results query include_raw_content max_results = Except.ok rs) := by
  constructor
  · intro e later h0 _h1
    simpa [searxng_search] using h0
  · intro rs h0
    simpa [searxng_search] using h0

/-- Closed instance of `c8_search_error_surface`: a backend whose first
attempt fails and whose second would succeed still surfaces the error. -/
theorem c8_search_error_surface_witness :
    searxng_search (fun _ _ _ _ attempt => if attempt = 0
        then Except.error ⟨"connection refused"⟩
        else Except.ok []) "q" true 3 = Except.error ⟨"connection refused"⟩ ∧
    searxng_search (fun _ _ _ _ _ => Except.ok [⟨"t", "u", "c", none⟩]) "q2" true 3 =
      Except.ok [⟨"t", "u", "c", none⟩] := by
  constructor
  · exact (c8_search_error_surface _ "q" true 3).1 ⟨"connection refused"⟩ [] rfl rfl
  · exact (c8_search_error_surface _ "q2" true 3).2 [⟨"t", "u", "c", none⟩] rfl

/-- C3 counterexample: for a record whose `raw_content` key is absent the
function substitutes the empty string but prints no warning at all, contrary
to the claim that absent raw content triggers a warning referencing the URL. -/
theorem c3_counterexample :
    (deduplicate_and_format_sources
        [⟨some "T3", some "u3", some "s3", none, none, none⟩] 10 true).toOption.map
      FormatResult.warnings = some [] := by decide

/-- C9 counterexample: an input whose second record lacks `title` (it shares
the URL `u9` with the first record, so it is dropped by deduplication before
its title is ever read) is processed without any error, contrary to the claim
that every input containing a record with a missing required field raises. -/
theorem c9_counterexample :
    (deduplicate_and_format_sources
        [⟨some "T9", some "u9", some "s9", none, none, none⟩,
         ⟨none, some "u9", some "s9b", none, none, none⟩] 1 true).isOk = true := by
  decide

theorem lookup_isSome_iff (l : List (String × SourceRecord)) (k : String) :
    (List.lookup k l).isSome = true ↔ k ∈ l.map Prod.fst := by
  induction l with
  | nil => simp [List.lookup]
  | cons p t ih =>
    obtain ⟨a, b⟩ := p
    by_cases hk : k = a
    · subst hk
      simp [List.lookup]
    · have hbeq : (k == a) = false := by simp [hk]
      have hlk : List.lookup k ((a, b) :: t) = List.lookup k t := by
        simp [List.lookup, hbeq]
      rw [hlk, ih, List.map_cons, List.mem_cons]
      exact (or_iff_right hk).symm

/-- A record with no `link` key fails the dedup loop at once. -/
theorem dedupLoop_cons_err_link (r : SourceRecord) (rest : List SourceRecord)
    (uniq : List (String × SourceRecord)) (hl : r.link = none) :
    dedupLoop (r :: rest) uniq = Except.error ("KeyError: " ++ "link") := by
  cases r
  simp_all [dedupLoop, getKey]

/-- A record with a `link` but no `snippet` key fails the dedup loop at once. -/
theorem dedupLoop_cons_err_snippet (r : SourceRecord) (rest : List SourceRecord)
    (uniq : List (String × SourceRecord)) (lk : String)
    (hl : r.link = some lk) (hs : r.snippet = none) :
    dedupLoop (r :: rest) uniq = Except.error ("KeyError: " ++ "snippet") := by
  cases r
  simp_all [dedupLoop, getKey]

/-- The dedup loop over a concatenation is the loop over the first part
followed by the loop over the second, threading `unique_sources` through. -/
theorem dedupLoop_append (xs ys : List SourceRecord) :
    ∀ uniq, dedupLoop (xs ++ ys) uniq =
      match dedupLoop xs uniq with
      | Except.error e => Except.error e
      | Except.ok (a, u1) =>
        match dedupLoop ys u1 with
        | Except.error e => Except.error e
        | Except.ok (b, u2) => Except.ok (a ++ b, u2) := by
  induction xs with
  | nil =>
    intro uniq
    simp only [List.nil_append, dedupLoop]
    cases h : dedupLoop ys uniq with
    | error e => simp
    | ok p => obtain ⟨b, u2⟩ := p; simp
  | cons r rest ih =>
    intro uniq
    cases hl : r.link with
    | none =>
      rw [List.cons_append, dedupLoop_cons_err_link r (rest ++ ys) uniq hl,
        dedupLoop_cons_err_link r rest uniq hl]
    | some lk =>
      cases hs : r.snippet with
      | none =>
        rw [List.cons_append, dedupLoop_cons_err_snippet r (rest ++ ys) uniq lk hl hs,
          dedupLoop_cons_err_snippet r rest uniq lk hl hs]
      | some sn =>
        rw [List.cons_append, dedupLoop_cons_ok r (rest ++ ys) uniq lk sn hl hs,
          dedupLoop_cons_ok r rest uniq lk sn hl hs, ih]
        cases h1 : dedupLoop rest (if (List.lookup lk uniq).isSome then uniq
            else uniq ++ [(lk, mutateRecord r)]) with
        | error e => simp
        | ok p =>
          obtain ⟨a, u1⟩ := p
          cases h2 : dedupLoop ys u1 with
          | error e => simp [h2]
          | ok q => obtain ⟨b, u2⟩ := q; simp [h2]

/-- Keys already in `unique_sources` survive the rest of the dedup loop. -/
theorem dedupLoop_keys_mono (rs : List SourceRecord) :
    ∀ uniq a uf k, dedupLoop rs uniq = Except.ok (a, uf) →
      k ∈ uniq.map Prod.fst → k ∈ uf.map Prod.fst := by
  induction rs with
  | nil =>
    intro uniq a uf k h hk
    simp [dedupLoop] at h
    rw [← h.2]
    exact hk
  | cons r rest ih =>
    intro uniq a uf k h hk
    obtain ⟨lk, sn, recs, hl, hs, hrec, hout⟩ := dedupLoop_cons_inv r rest uniq (a, uf) h
    refine ih _ _ _ k hrec ?_
    by_cases hmem : (List.lookup lk uniq).isSome = true
    · rw [if_pos hmem]; exact hk
    · rw [if_neg hmem]
      simp only [List.map_append]
      exact List.mem_append_left _ hk

/-- After the dedup loop processes a record whose `link` is `u`, the key `u`
is present in the final `unique_sources`. -/
theorem dedupLoop_mem_key (rs : List SourceRecord) :
    ∀ uniq a uf x u, x ∈ rs → x.link = some u →
      dedupLoop rs uniq = Except.ok (a, uf) → u ∈ uf.map Prod.fst := by
  induction rs with
  | nil => intro _ _ _ _ _ hx; simp at hx
  | cons r rest ih =>
    intro uniq a uf x u hx hxu h
    obtain ⟨lk, sn, recs, hl, hs, hrec, hout⟩ := dedupLoop_cons_inv r rest uniq (a, uf) h
    rcases List.mem_cons.mp hx with hxr | hxrest
    · subst hxr
      have hlk : lk = u := by rw [hl] at hxu; exact Option.some.inj hxu
      subst hlk
      refine dedupLoop_keys_mono rest _ _ _ lk hrec ?_
      by_cases hmem : (List.lookup lk uniq).isSome = true
      · rw [if_pos hmem]
        exact (lookup_isSome_iff uniq lk).mp hmem
      · rw [if_neg hmem]
        simp
    · exact ih _ _ _ x u hxrest hxu hrec

/-- Processing a record whose URL key is already in `unique_sources` leaves
`unique_sources` unchanged: only the record's own mutation remains. -/
theorem dedupLoop_skip_dup (dup : SourceRecord) (ys : List SourceRecord)
    (uniq : List (String × SourceRecord)) (u sn : String)
    (hdl : dup.link = some u) (hds : dup.snippet = some sn)
    (hmem : u ∈ uniq.map Prod.fst) :
    dedupLoop (dup :: ys) uniq =
      match dedupLoop ys uniq with
      | Except.error e => Except.error e
      | Except.ok (b, u2) => Except.ok (mutateRecord dup :: b, u2) := by
  rw [dedupLoop_cons_ok dup ys uniq u sn hdl hds,
    if_pos ((lookup_isSome_iff uniq u).mpr hmem)]

/-- The dedup loop succeeds whenever every record has `link` and `snippet`. -/
theorem dedupLoop_ok_of_fields (rs : List SourceRecord) :
    ∀ uniq, (∀ q ∈ rs, q.link.isSome ∧ q.snippet.isSome) →
      ∃ a uf, dedupLoop rs uniq = Except.ok (a, uf) := by
  induction rs with
  | nil => intro uniq _; exact ⟨[], uniq, rfl⟩
  | cons r rest ih =>
    intro uniq hf
    obtain ⟨hl', hs'⟩ := hf r (List.mem_cons_self r rest)
    obtain ⟨lk, hl⟩ := Option.isSome_iff_exists.mp hl'
    obtain ⟨sn, hs⟩ := Option.isSome_iff_exists.mp hs'
    obtain ⟨a, uf, hrec⟩ := ih (if (List.lookup lk uniq).isSome then uniq
        else uniq ++ [(lk, mutateRecord r)])
      (fun q hq => hf q (List.mem_cons_of_mem _ hq))
    refine ⟨mutateRecord r :: a, uf, ?_⟩
    rw [dedupLoop_cons_ok r rest uniq lk sn hl hs, hrec]

/-- Every entry of the final `unique_sources` either was there initially or
is the mutation of some input record keyed by that record's link. -/
theorem dedupLoop_entries (rs : List SourceRecord) :
    ∀ uniq a uf p, dedupLoop rs uniq = Except.ok (a, uf) → p ∈ uf →
      p ∈ uniq ∨ ∃ q, q ∈ rs ∧ q.link = some p.1 ∧ p.2 = mutateRecord q := by
  induction rs with
  | nil =>
    intro uniq a uf p h hp
    simp [dedupLoop] at h
    left
    rw [h.2]
    exact hp
  | cons r rest ih =>
    intro uniq a uf p h hp
    obtain ⟨lk, sn, recs, hl, hs, hrec, hout⟩ := dedupLoop_cons_inv r rest uniq (a, uf) h
    rcases ih _ _ _ p hrec hp with hin | ⟨q, hq, hql, hqv⟩
    · by_cases hmem : (List.lookup lk uniq).isSome = true
      · rw [if_pos hmem] at hin
        exact Or.inl hin
      · rw [if_neg hmem] at hin
        rcases List.mem_append.mp hin with h1 | h2
        · exact Or.inl h1
        · right
          have hp2 : p = (lk, mutateRecord r) := by simpa using h2
          exact ⟨r, List.mem_cons_self r rest, by rw [hp2]; exact hl, by rw [hp2]⟩
    · exact Or.inr ⟨q, List.mem_cons_of_mem _ hq, hql, hqv⟩

/-- The key order of `unique_sources` is the spec's first-seen order of the
records' links, folded from the initial key list. -/
theorem dedupLoop_keys_spec (rs : List SourceRecord) :
    ∀ (urls : List String) uniq a uf, rs.map SourceRecord.link = urls.map some →
      dedupLoop rs uniq = Except.ok (a, uf) →
      uf.map Prod.fst = urls.foldl
        (fun acc v => if v ∈ acc then acc else acc ++ [v]) (uniq.map Prod.fst) := by
  induction rs with
  | nil =>
    intro urls uniq a uf hmap h
    have hurls : urls = [] := by
      cases urls with
      | nil => rfl
      | cons v vs => simp at hmap
    subst hurls
    simp [dedupLoop] at h
    rw [← h.2]
    simp
  | cons r rest ih =>
    intro urls uniq a uf hmap h
    cases urls with
    | nil => simp at hmap
    | cons v vs =>
      simp only [List.map_cons, List.cons.injEq] at hmap
      obtain ⟨hv, hvs⟩ := hmap
      obtain ⟨lk, sn, recs, hl, hs, hrec, hout⟩ := dedupLoop_cons_inv r rest uniq (a, uf) h
      have hlk : lk = v := by rw [hl] at hv; exact Option.some.inj hv
      subst hlk
      rw [ih vs _ _ _ hvs hrec]
      simp only [List.foldl_cons]
      congr 1
      by_cases hmem : (List.lookup lk uniq).isSome = true
      · rw [if_pos hmem, if_pos ((lookup_isSome_iff uniq lk).mp hmem)]
      · rw [if_neg hmem, if_neg (fun hc => hmem ((lookup_isSome_iff uniq lk).mpr hc))]
        simp

/-- Evaluation of the loop body on a record with title, url and content
present, with raw content requested. -/
theorem formatBlock_fields (m : Nat) (r : SourceRecord) (t u c : String)
    (ht : r.title = some t) (hu : r.url = some u) (hc : r.content = some c) :
    formatBlock m true r = Except.ok
      (blockBase t u c ++ "Full source content limited to " ++ toString m ++
        " tokens: " ++ truncateRaw (m * 4) (rawGot u r.raw_content).1 ++ "\n\n",
      (rawGot u r.raw_content).2) := by
  cases r
  simp_all [formatBlock, getKey]

/-- Evaluation of the loop body with raw content not requested. -/
theorem formatBlock_fields_false (m : Nat) (r : SourceRecord) (t u c : String)
    (ht : r.title = some t) (hu : r.url = some u) (hc : r.content = some c) :
    formatBlock m false r = Except.ok (blockBase t u c, []) := by
  cases r
  simp_all [formatBlock, getKey]

/-- A retained record with no `title` key fails the formatting loop body. -/
theorem formatBlock_err_title (m : Nat) (irc : Bool) (r : SourceRecord)
    (ht : r.title = none) :
    formatBlock m irc r = Except.error ("KeyError: " ++ "title") := by
  cases r
  simp_all [formatBlock, getKey]

/-- The loop body succeeds whenever title, url and content are present. -/
theorem formatBlock_ok_of_fields (m : Nat) (irc : Bool) (r : SourceRecord)
    (ht : r.title.isSome) (hu : r.url.isSome) (hc : r.content.isSome) :
    ∃ bw, formatBlock m irc r = Except.ok bw := by
  obtain ⟨t, ht⟩ := Option.isSome_iff_exists.mp ht
  obtain ⟨u, hu⟩ := Option.isSome_iff_exists.mp hu
  obtain ⟨c, hc⟩ := Option.isSome_iff_exists.mp hc
  cases irc with
  | true => exact ⟨_, formatBlock_fields m r t u c ht hu hc⟩
  | false => exact ⟨_, formatBlock_fields_false m r t u c ht hu hc⟩

/-- One successful step of the formatting loop. -/
theorem buildFormattedText_cons (m : Nat) (irc : Bool) (v : SourceRecord)
    (vs : List SourceRecord) (b : String) (w : List String)
    (hb : formatBlock m irc v = Except.ok (b, w)) :
    buildFormattedText m irc (v :: vs) =
      match buildFormattedText m irc vs with
      | Except.error e => Except.error e
      | Except.ok (t2, w2) => Except.ok (b ++ t2, w ++ w2) := by
  simp [buildFormattedText, hb]

/-- The formatting loop over a concatenation splits into the two parts. -/
theorem buildFormattedText_append (m : Nat) (irc : Bool) (as bs : List SourceRecord) :
    buildFormattedText m irc (as ++ bs) =
      match buildFormattedText m irc as with
      | Except.error e => Except.error e
      | Except.ok (ta, wa) =>
        match buildFormattedText m irc bs with
        | Except.error e => Except.error e
        | Except.ok (tb, wb) => Except.ok (ta ++ tb, wa ++ wb) := by
  induction as with
  | nil =>
    simp only [List.nil_append, buildFormattedText]
    cases h : buildFormattedText m irc bs with
    | error e => simp [h]
    | ok p => obtain ⟨tb, wb⟩ := p; simp [h]
  | cons v rest ih =>
    cases hb : formatBlock m irc v with
    | error e =>
      have h1 : buildFormattedText m irc ((v :: rest) ++ bs) = Except.error e := by
        simp [buildFormattedText, hb]
      have h2 : buildFormattedText m irc (v :: rest) = Except.error e := by
        simp [buildFormattedText, hb]
      rw [h1, h2]
    | ok p =>
      obtain ⟨b, w⟩ := p
      rw [List.cons_append, buildFormattedText_cons m irc v (rest ++ bs) b w hb, ih,
        buildFormattedText_cons m irc v rest b w hb]
      cases h1 : buildFormattedText m irc rest with
      | error e => simp
      | ok q =>
        obtain ⟨ta, wa⟩ := q
        cases h2 : buildFormattedText m irc bs with
        | error e => simp [h2]
        | ok s =>
          obtain ⟨tb, wb⟩ := s
          simp [h2, String.append_assoc, List.append_assoc]

/-- The formatting loop succeeds when every record has the three fields. -/
theorem buildFormattedText_ok_of_fields (m : Nat) (irc : Bool)
    (vs : List SourceRecord)
    (hf : ∀ v ∈ vs, v.title.isSome ∧ v.url.isSome ∧ v.content.isSome) :
    ∃ tw, buildFormattedText m irc vs = Except.ok tw := by
  induction vs with
  | nil => exact ⟨("", []), rfl⟩
  | cons v rest ih =>
    obtain ⟨ht, hu, hc⟩ := hf v (List.mem_cons_self v rest)
    obtain ⟨⟨b, w⟩, hb⟩ := formatBlock_ok_of_fields m irc v ht hu hc
    obtain ⟨⟨t2, w2⟩, h2⟩ := ih (fun q hq => hf q (List.mem_cons_of_mem _ hq))
    refine ⟨(b ++ t2, w ++ w2), ?_⟩
    rw [buildFormattedText_cons m irc v rest b w hb, h2]

/-- The first character surviving `dropWhile` fails the predicate. -/
theorem head_dropWhile_false (p : Char → Bool) :
    ∀ (l : List Char) (c : Char), (l.dropWhile p).head? = some c → p c = false := by
  intro l
  induction l with
  | nil => intro c h; simp [List.dropWhile] at h
  | cons a t ih =>
    intro c h
    by_cases ha : p a = true
    · rw [List.dropWhile_cons_of_pos ha] at h
      exact ih c h
    · rw [List.dropWhile_cons_of_neg ha] at h
      cases h
      exact Bool.eq_false_iff.mpr ha

/-- Stripping a string that starts with the banner keeps the banner. -/
theorem pyStrip_banner (blocks : String) :
    ∃ u, (pyStrip ("Sources:\n\n" ++ blocks)).data = "Sources:".data ++ u := by
  have hS : ¬ pyIsSpace 'S' = true := by decide
  have h1 : ("Sources:\n\n" ++ blocks).data.dropWhile pyIsSpace =
      "Sources:\n\n".data ++ blocks.data := by
    rw [String.data_append]
    show List.dropWhile pyIsSpace ('S' :: ("ources:\n\n".data ++ blocks.data)) = _
    rw [List.dropWhile_cons_of_neg hS]
    rfl
  show ∃ u, ((("Sources:\n\n" ++ blocks).data.dropWhile pyIsSpace).reverse.dropWhile
    pyIsSpace).reverse = "Sources:".data ++ u
  rw [h1, List.reverse_append, List.dropWhile_append]
  by_cases hemp : ((blocks.data.reverse).dropWhile pyIsSpace).isEmpty = true
  · rw [if_pos hemp]
    refine ⟨[], ?_⟩
    rw [List.append_nil]
    rfl
  · rw [if_neg hemp, List.reverse_append, List.reverse_reverse]
    refine ⟨'\n' :: '\n' :: ((blocks.data.reverse).dropWhile pyIsSpace).reverse, ?_⟩
    rw [show "Sources:\n\n".data = "Sources:".data ++ ['\n', '\n'] from rfl,
      List.append_assoc]
    rfl

/-- Stripping leaves no trailing whitespace character. -/
theorem pyStrip_no_trailing (s : String) (c : Char)
    (h : (pyStrip s).data.getLast? = some c) : pyIsSpace c = false := by
  have h' : ((s.data.dropWhile pyIsSpace).reverse.dropWhile
      pyIsSpace).reverse.getLast? = some c := h
  rw [List.getLast?_reverse] at h'
  exact head_dropWhile_false pyIsSpace _ c h'

/-- A successful run decomposes into its dedup loop and formatting loop. -/
theorem dedup_format_decomp (rs : List SourceRecord) (m : Nat) (irc : Bool)
    (res : FormatResult)
    (hok : deduplicate_and_format_sources rs m irc = Except.ok res) :
    ∃ a uniq blocks warns,
      dedupLoop rs [] = Except.ok (a, uniq) ∧
      buildFormattedText m irc (uniq.map Prod.snd) = Except.ok (blocks, warns) ∧
      res = ⟨pyStrip ("Sources:\n\n" ++ blocks), warns, a⟩ := by
  unfold deduplicate_and_format_sources at hok
  cases hd : dedupLoop rs [] with
  | error e => simp [hd] at hok
  | ok p =>
    obtain ⟨a, uniq⟩ := p
    simp only [hd] at hok
    cases hb : buildFormattedText m irc (uniq.map Prod.snd) with
    | error e => simp [hb] at hok
    | ok q =>
      obtain ⟨blocks, warns⟩ := q
      rw [hb] at hok
      cases hok
      exact ⟨a, uniq, blocks, warns, rfl, hb, rfl⟩

/-- Reassembling a run from its dedup loop and formatting loop. -/
theorem dedup_format_build (rs : List SourceRecord) (m : Nat) (irc : Bool)
    (a : List SourceRecord) (uniq : List (String × SourceRecord))
    (blocks : String) (warns : List String)
    (h1 : dedupLoop rs [] = Except.ok (a, uniq))
    (h2 : buildFormattedText m irc (uniq.map Prod.snd) = Except.ok (blocks, warns)) :
    deduplicate_and_format_sources rs m irc =
      Except.ok ⟨pyStrip ("Sources:\n\n" ++ blocks), warns, a⟩ := by
  simp [deduplicate_and_format_sources, h1, h2]

/-- A failing dedup loop fails the whole call with the same error. -/
theorem dedup_format_err_loop (rs : List SourceRecord) (m : Nat) (irc : Bool)
    (e : String) (h1 : dedupLoop rs [] = Except.error e) :
    deduplicate_and_format_sources rs m irc = Except.error e := by
  simp [deduplicate_and_format_sources, h1]

/-- A failing formatting loop fails the whole call with the same error. -/
theorem dedup_format_err_build (rs : List SourceRecord) (m : Nat) (irc : Bool)
    (a : List SourceRecord) (uniq : List (String × SourceRecord)) (e : String)
    (h1 : dedupLoop rs [] = Except.ok (a, uniq))
    (h2 : buildFormattedText m irc (uniq.map Prod.snd) = Except.error e) :
    deduplicate_and_format_sources rs m irc = Except.error e := by
  simp [deduplicate_and_format_sources, h1, h2]

/-- C6: a successful call returns a single string that begins with the
"Sources:" banner and carries no trailing whitespace, and the function is
deterministic: equal inputs give equal outputs. -/
theorem c6_banner_trimmed_deterministic (rs : List SourceRecord) (m : Nat)
    (irc : Bool) (res : FormatResult)
    (hok : deduplicate_and_format_sources rs m irc = Except.ok res) :
    (∃ u, res.text.data = "Sources:".data ++ u) ∧
    (∀ c, res.text.data.getLast? = some c → pyIsSpace c = false) ∧
    deduplicate_and_format_sources rs m irc = deduplicate_and_format_sources rs m irc := by
  obtain ⟨a, uniq, blocks, warns, h1, h2, hres⟩ := dedup_format_decomp rs m irc res hok
  have htext : res.text = pyStrip ("Sources:\n\n" ++ blocks) := by rw [hres]
  refine ⟨?_, ?_, rfl⟩
  · rw [htext]
    exact pyStrip_banner blocks
  · intro c hc
    rw [htext] at hc
    exact pyStrip_no_trailing _ c hc

/-- Closed instance of `c6_banner_trimmed_deterministic` at the empty input. -/
theorem c6_banner_trimmed_deterministic_witness :
    (∃ u, ("Sources:" : String).data = "Sources:".data ++ u) ∧
    (∀ c, ("Sources:" : String).data.getLast? = some c → pyIsSpace c = false) ∧
    deduplicate_and_format_sources [] 0 false = deduplicate_and_format_sources [] 0 false :=
  c6_banner_trimmed_deterministic [] 0 false ⟨"Sources:", [], []⟩ rfl

/-- C5: the retained URLs of `unique_sources` are exactly the input links in
first-seen order, and the output text renders the retained records in that
association-list order. -/
theorem c5_order_first_seen (rs : List SourceRecord) (urls : List String)
    (hmap : rs.map SourceRecord.link = urls.map some)
    (a : List SourceRecord) (uniq : List (String × SourceRecord))
    (hok : dedupLoop rs [] = Except.ok (a, uniq)) :
    uniq.map Prod.fst = firstSeenOrder urls ∧
    ∀ m irc res, deduplicate_and_format_sources rs m irc = Except.ok res →
      ∃ blocks warns,
        buildFormattedText m irc (uniq.map Prod.snd) = Except.ok (blocks, warns) ∧
        res.text = pyStrip ("Sources:\n\n" ++ blocks) := by
  constructor
  · have h := dedupLoop_keys_spec rs urls [] a uniq hmap hok
    simpa [firstSeenOrder] using h
  · intro m irc res hres
    obtain ⟨a2, uniq2, blocks, warns, h1, h2, hres2⟩ := dedup_format_decomp rs m irc res hres
    have huniq : uniq2 = uniq := by
      have h := h1.symm.trans hok
      exact ((Prod.mk.injEq _ _ _ _).mp (Except.ok.inj h)).2
    subst huniq
    exact ⟨blocks, warns, h2, by rw [hres2]⟩

/-- Closed instance of `c5_order_first_seen`: three records with links
`u1, u2, u1` retain keys `["u1", "u2"]`, the first-seen order. -/
theorem c5_order_first_seen_witness :
    ([("u1", (⟨some "A", some "u1", some "sa", some "u1", some "sa", none⟩ : SourceRecord)),
      ("u2", (⟨some "B", some "u2", some "sb", some "u2", some "sb", none⟩ : SourceRecord))].map
        Prod.fst) = firstSeenOrder ["u1", "u2", "u1"] :=
  (c5_order_first_seen
    [⟨some "A", some "u1", some "sa", none, none, none⟩,
     ⟨some "B", some "u2", some "sb", none, none, none⟩,
     ⟨some "A2", some "u1", some "sa2", none, none, none⟩]
    ["u1", "u2", "u1"] rfl
    [⟨some "A", some "u1", some "sa", some "u1", some "sa", none⟩,
     ⟨some "B", some "u2", some "sb", some "u2", some "sb", none⟩,
     ⟨some "A2", some "u1", some "sa2", some "u1", some "sa2", none⟩]
    [("u1", ⟨some "A", some "u1", some "sa", some "u1", some "sa", none⟩),
     ("u2", ⟨some "B", some "u2", some "sb", some "u2", some "sb", none⟩)]
    rfl).1

/-- C2: a later record whose URL (`link`) duplicates the URL of an earlier
record contributes nothing to the output text or warnings: the call on
`xs ++ dup :: ys` returns the same text and warnings as the call on
`xs ++ ys`.  (The duplicate is still mutated in place, so the records
component is excluded from the comparison.) -/
theorem c2_first_write_wins (xs ys : List SourceRecord) (dup x : SourceRecord)
    (u sn : String) (hx : x ∈ xs) (hxu : x.link = some u)
    (hdl : dup.link = some u) (hds : dup.snippet = some sn)
    (m : Nat) (irc : Bool) :
    (deduplicate_and_format_sources (xs ++ dup :: ys) m irc).map
        (fun res => (res.text, res.warnings)) =
      (deduplicate_and_format_sources (xs ++ ys) m irc).map
        (fun res => (res.text, res.warnings)) := by
  cases hxs : dedupLoop xs [] with
  | error e =>
    have hA : dedupLoop (xs ++ dup :: ys) [] = Except.error e := by
      rw [dedupLoop_append]
      simp [hxs]
    have hB : dedupLoop (xs ++ ys) [] = Except.error e := by
      rw [dedupLoop_append]
      simp [hxs]
    rw [dedup_format_err_loop _ m irc _ hA, dedup_format_err_loop _ m irc _ hB]
  | ok p =>
    obtain ⟨a1, u1⟩ := p
    have hu : u ∈ u1.map Prod.fst := dedupLoop_mem_key xs [] a1 u1 x u hx hxu hxs
    have hskip := dedupLoop_skip_dup dup ys u1 u sn hdl hds hu
    cases hys : dedupLoop ys u1 with
    | error e =>
      have hA : dedupLoop (xs ++ dup :: ys) [] = Except.error e := by
        rw [dedupLoop_append]
        simp [hxs, hskip, hys]
      have hB : dedupLoop (xs ++ ys) [] = Except.error e := by
        rw [dedupLoop_append]
        simp [hxs, hys]
      rw [dedup_format_err_loop _ m irc _ hA, dedup_format_err_loop _ m irc _ hB]
    | ok q =>
      obtain ⟨b, u2⟩ := q
      have hA : dedupLoop (xs ++ dup :: ys) [] =
          Except.ok (a1 ++ mutateRecord dup :: b, u2) := by
        rw [dedupLoop_append]
        simp [hxs, hskip, hys]
      have hB : dedupLoop (xs ++ ys) [] = Except.ok (a1 ++ b, u2) := by
        rw [dedupLoop_append]
        simp [hxs, hys]
      cases hbuild : buildFormattedText m irc (u2.map Prod.snd) with
      | error e =>
        rw [dedup_format_err_build _ m irc _ _ _ hA hbuild,
          dedup_format_err_build _ m irc _ _ _ hB hbuild]
      | ok t =>
        obtain ⟨blocks, warns⟩ := t
        rw [dedup_format_build _ m irc _ _ _ _ hA hbuild,
          dedup_format_build _ m irc _ _ _ _ hB hbuild]
        rfl

/-- Closed instance of `c2_first_write_wins`: two records sharing URL `du`. -/
theorem c2_first_write_wins_witness :
    (deduplicate_and_format_sources
        [⟨some "A", some "du", some "s1", none, none, none⟩,
         ⟨some "B", some "du", some "s2", none, none, none⟩] 1 true).map
      (fun res => (res.text, res.warnings)) =
    (deduplicate_and_format_sources
        [⟨some "A", some "du", some "s1", none, none, none⟩] 1 true).map
      (fun res => (res.text, res.warnings)) :=
  c2_first_write_wins [⟨some "A", some "du", some "s1", none, none, none⟩] []
    ⟨some "B", some "du", some "s2", none, none, none⟩
    ⟨some "A", some "du", some "s1", none, none, none⟩ "du" "s2"
    (List.mem_cons_self _ _) rfl rfl rfl 1 true

/-- The formatted text of the rendering loop contains, for each rendered
record with a present raw-content string, the full-source segment built from
`truncateRaw`. -/
theorem build_contains_raw_seg (m : Nat) (r : SourceRecord)
    (t u c s : String) (ht : r.title = some t) (hu : r.url = some u)
    (hc : r.content = some c) (hraw : r.raw_content = some (some s)) :
    ∀ (vs : List SourceRecord) (txt : String) (ws : List String), r ∈ vs →
      buildFormattedText m true vs = Except.ok (txt, ws) →
      ∃ pre post, txt.data = pre ++ ("Full source content limited to " ++
        toString m ++ " tokens: " ++ truncateRaw (m * 4) s ++ "\n\n").data ++ post := by
  intro vs
  induction vs with
  | nil => intro txt ws hr; simp at hr
  | cons v rest ih =>
    intro txt ws hr hok
    cases hb : formatBlock m true v with
    | error e => simp [buildFormattedText, hb] at hok
    | ok p =>
      obtain ⟨b, w⟩ := p
      rw [buildFormattedText_cons m true v rest b w hb] at hok
      cases h2 : buildFormattedText m true rest with
      | error e => rw [h2] at hok; cases hok
      | ok q =>
        obtain ⟨t2, w2⟩ := q
        rw [h2] at hok
        have hinj := Except.ok.inj hok
        have htxt : b ++ t2 = txt := congrArg Prod.fst hinj
        rcases List.mem_cons.mp hr with hveq | hmem
        · subst hveq
          rw [formatBlock_fields m r t u c ht hu hc] at hb
          have hb2 := Except.ok.inj hb
          have hbval : blockBase t u c ++ "Full source content limited to " ++
              toString m ++ " tokens: " ++
              truncateRaw (m * 4) (rawGot u r.raw_content).1 ++ "\n\n" = b :=
            congrArg Prod.fst hb2
          rw [hraw] at hbval
          simp only [rawGot] at hbval
          refine ⟨(blockBase t u c).data, t2.data, ?_⟩
          rw [← htxt, ← hbval]
          simp [String.data_append, List.append_assoc]
        · obtain ⟨pre, post, hdec⟩ := ih t2 w2 hmem h2
          refine ⟨b.data ++ pre, post, ?_⟩
          rw [← htxt, String.data_append, hdec]
          simp [List.append_assoc]

/-- C1: for a rendered record whose raw body is longer than
`max_tokens_per_source * 4` characters the emitted segment carries the body
cut to exactly that many characters followed by `"... [truncated]"`; a body
of length at most the limit is emitted unchanged with no marker. -/
theorem c1_truncation (m : Nat) (vs : List SourceRecord) (r : SourceRecord)
    (t u c s : String) (hr : r ∈ vs) (ht : r.title = some t) (hu : r.url = some u)
    (hc : r.content = some c) (hraw : r.raw_content = some (some s))
    (txt : String) (ws : List String)
    (hok : buildFormattedText m true vs = Except.ok (txt, ws)) :
    (s.length > m * 4 →
      (String.mk (s.data.take (m * 4))).length = m * 4 ∧
      ∃ pre post, txt.data = pre ++ ("Full source content limited to " ++
        toString m ++ " tokens: " ++ (String.mk (s.data.take (m * 4)) ++
        "... [truncated]") ++ "\n\n").data ++ post) ∧
    (s.length ≤ m * 4 →
      ∃ pre post, txt.data = pre ++ ("Full source content limited to " ++
        toString m ++ " tokens: " ++ s ++ "\n\n").data ++ post) := by
  obtain ⟨pre, post, hdec⟩ :=
    build_contains_raw_seg m r t u c s ht hu hc hraw vs txt ws hr hok
  constructor
  · intro hgt
    constructor
    · show (s.data.take (m * 4)).length = m * 4
      rw [List.length_take]
      have hs : s.data.length = s.length := rfl
      omega
    · simp only [truncateRaw] at hdec
      rw [if_pos hgt] at hdec
      exact ⟨pre, post, hdec⟩
  · intro hle
    simp only [truncateRaw] at hdec
    rw [if_neg (by omega)] at hdec
    exact ⟨pre, post, hdec⟩

/-- Closed instance of `c1_truncation` at `max_tokens_per_source = 10`: a
41-character body is cut to exactly 40 characters plus the marker, and a
5-character body passes through unchanged. -/
theorem c1_truncation_witness :
    ((String.mk (("0123456789012345678901234567890123456789X" : String).data.take
        (10 * 4))).length = 10 * 4 ∧
      ∃ pre post,
        ("Source TA:\n===\nURL: uA\n===\nMost relevant content from source: cA\n===\nFull source content limited to 10 tokens: 0123456789012345678901234567890123456789... [truncated]\n\n" : String).data =
          pre ++ ("Full source content limited to " ++ toString 10 ++ " tokens: " ++
            (String.mk (("0123456789012345678901234567890123456789X" : String).data.take
              (10 * 4)) ++ "... [truncated]") ++ "\n\n").data ++ post) ∧
    (∃ pre post,
        ("Source TB:\n===\nURL: uB\n===\nMost relevant content from source: cB\n===\nFull source content limited to 10 tokens: short\n\n" : String).data =
          pre ++ ("Full source content limited to " ++ toString 10 ++ " tokens: " ++
            ("short" : String) ++ "\n\n").data ++ post) := by
  constructor
  · exact (c1_truncation 10
      [⟨some "TA", none, none, some "uA", some "cA",
        some (some "0123456789012345678901234567890123456789X")⟩]
      ⟨some "TA", none, none, some "uA", some "cA",
        some (some "0123456789012345678901234567890123456789X")⟩
      "TA" "uA" "cA" "0123456789012345678901234567890123456789X"
      (List.mem_cons_self _ _) rfl rfl rfl rfl
      "Source TA:\n===\nURL: uA\n===\nMost relevant content from source: cA\n===\nFull source content limited to 10 tokens: 0123456789012345678901234567890123456789... [truncated]\n\n"
      [] rfl).1 (by decide)
  · exact (c1_truncation 10
      [⟨some "TB", none, none, some "uB", some "cB", some (some "short")⟩]
      ⟨some "TB", none, none, some "uB", some "cB", some (some "short")⟩
      "TB" "uB" "cB" "short" (List.mem_cons_self _ _) rfl rfl rfl rfl
      "Source TB:\n===\nURL: uB\n===\nMost relevant content from source: cB\n===\nFull source content limited to 10 tokens: short\n\n"
      [] rfl).2 (by decide)

theorem mutateRecord_url (r : SourceRecord) : (mutateRecord r).url = r.link := rfl

theorem mutateRecord_content (r : SourceRecord) : (mutateRecord r).content = r.snippet := rfl

/-- The dedup loop only appends to `unique_sources`. -/
theorem dedupLoop_uniq_extends (rs : List SourceRecord) :
    ∀ uniq a uf, dedupLoop rs uniq = Except.ok (a, uf) → ∃ ext, uf = uniq ++ ext := by
  induction rs with
  | nil =>
    intro uniq a uf h
    simp [dedupLoop] at h
    exact ⟨[], by rw [← h.2, List.append_nil]⟩
  | cons r rest ih =>
    intro uniq a uf h
    obtain ⟨lk, sn, recs, hl, hs, hrec, hout⟩ := dedupLoop_cons_inv r rest uniq (a, uf) h
    obtain ⟨ext, hext⟩ := ih _ _ _ hrec
    by_cases hmem : (List.lookup lk uniq).isSome = true
    · rw [if_pos hmem] at hext
      exact ⟨ext, hext⟩
    · rw [if_neg hmem] at hext
      have hext2 : uf = uniq ++ [(lk, mutateRecord r)] ++ ext := hext
      exact ⟨(lk, mutateRecord r) :: ext, by rw [hext2, List.append_assoc]; rfl⟩

/-- C3 amended: for a record with title, link and snippet present, placed
first (hence retained), a successful call decomposes as: the remaining
records extend `unique_sources` behind the record's entry, the tail blocks
and tail warnings `ws2` come from rendering exactly those later entries, the
call's warnings are `ws2` prefixed by the record's own warning — present
exactly when `raw_content` is a present-but-`None` key — and the record's
block embeds its rendered body `truncateRaw (m*4) (rawGot u raw).1`.  That
body is the empty string whenever `raw_content` is absent, null, or the
empty string (empty substitution).  Processing continues: whenever the
remaining records carry the loop's required fields the call succeeds,
whatever `raw_content` is. -/
theorem c3_amended_warning (m : Nat) (r : SourceRecord) (rest : List SourceRecord)
    (t u c : String) (ht : r.title = some t) (hl : r.link = some u)
    (hs : r.snippet = some c) :
    (∀ res, deduplicate_and_format_sources (r :: rest) m true = Except.ok res →
      ∃ ext blocks2 ws2,
        dedupLoop rest [(u, mutateRecord r)] =
          Except.ok (rest.map mutateRecord, [(u, mutateRecord r)] ++ ext) ∧
        buildFormattedText m true (ext.map Prod.snd) = Except.ok (blocks2, ws2) ∧
        res.warnings = (if r.raw_content = some none
          then ["Warning: No raw_content found for source " ++ u] else []) ++ ws2 ∧
        res.text = pyStrip ("Sources:\n\n" ++
          ((blockBase t u c ++ "Full source content limited to " ++ toString m ++
            " tokens: " ++ truncateRaw (m * 4) (rawGot u r.raw_content).1 ++
            "\n\n") ++ blocks2))) ∧
    ((r.raw_content = none ∨ r.raw_content = some none ∨
        r.raw_content = some (some "")) →
      truncateRaw (m * 4) (rawGot u r.raw_content).1 = "") ∧
    ((∀ q ∈ rest, q.title.isSome ∧ q.link.isSome ∧ q.snippet.isSome) →
      ∃ res, deduplicate_and_format_sources (r :: rest) m true = Except.ok res) := by
  refine ⟨?_, ?_, ?_⟩
  · intro res hres
    obtain ⟨a, uniq, blocks, warns, h1, h2, hres2⟩ := dedup_format_decomp _ _ _ _ hres
    obtain ⟨lk, sn, recs, hl2, hs2, hrec, hout⟩ := dedupLoop_cons_inv r rest [] (a, uniq) h1
    rw [show lk = u from Option.some.inj (hl2.symm.trans hl)] at hrec
    rw [if_neg (by simp [List.lookup])] at hrec
    obtain ⟨ext, hext⟩ := dedupLoop_uniq_extends rest _ _ _ hrec
    have hext2 : uniq = [] ++ [(u, mutateRecord r)] ++ ext := hext
    rw [hext2] at h2
    have hmap : (([] ++ [(u, mutateRecord r)] ++ ext).map Prod.snd) =
        mutateRecord r :: ext.map Prod.snd := by simp
    rw [hmap] at h2
    have hfb := formatBlock_fields m (mutateRecord r) t u c
      (by rw [mutateRecord_title]; exact ht)
      (by rw [mutateRecord_url]; exact hl)
      (by rw [mutateRecord_content]; exact hs)
    rw [buildFormattedText_cons m true (mutateRecord r) (ext.map Prod.snd) _ _ hfb] at h2
    cases h3 : buildFormattedText m true (ext.map Prod.snd) with
    | error e => rw [h3] at h2; cases h2
    | ok q =>
      obtain ⟨t2, w2⟩ := q
      rw [h3] at h2
      have hinj := Except.ok.inj h2
      have hwarns : (rawGot u (mutateRecord r).raw_content).2 ++ w2 = warns :=
        congrArg Prod.snd hinj
      have hblocks : blockBase t u c ++ "Full source content limited to " ++
          toString m ++ " tokens: " ++
          truncateRaw (m * 4) (rawGot u (mutateRecord r).raw_content).1 ++
          "\n\n" ++ t2 = blocks := congrArg Prod.fst hinj
      have hrecs : recs = rest.map mutateRecord := dedupLoop_records rest _ _ _ hrec
      refine ⟨ext, t2, w2, ?_, h3, ?_, ?_⟩
      · rw [← hrecs]
        have huniq2 : (a, uniq).2 = [(u, mutateRecord r)] ++ ext := hext2
        rw [← huniq2]
        exact hrec
      · rw [hres2]
        show warns = _
        rw [← hwarns, mutateRecord_raw]
        congr 1
        cases hraw : r.raw_content with
        | none => simp [rawGot]
        | some o =>
          cases o with
          | none => simp [rawGot]
          | some s2 => simp [rawGot]
      · rw [hres2]
        show pyStrip ("Sources:\n\n" ++ blocks) = _
        rw [← hblocks, mutateRecord_raw]
  · intro hdisj
    rcases hdisj with h | h | h <;>
      simp [h, rawGot, truncateRaw]
  · intro hrest
    obtain ⟨a, uf, hd⟩ := dedupLoop_ok_of_fields (r :: rest) []
      (by
        intro q hq
        rcases List.mem_cons.mp hq with hqr | hqrest
        · subst hqr
          exact ⟨by rw [hl]; rfl, by rw [hs]; rfl⟩
        · obtain ⟨_, h2', h3'⟩ := hrest q hqrest
          exact ⟨h2', h3'⟩)
    have hvals : ∀ v ∈ uf.map Prod.snd,
        v.title.isSome ∧ v.url.isSome ∧ v.content.isSome := by
      intro v hv
      obtain ⟨p, hp, hpv⟩ := List.mem_map.mp hv
      rcases dedupLoop_entries (r :: rest) [] a uf p hd hp with hin | ⟨q, hq, hql, hqv⟩
      · simp at hin
      · rw [← hpv, hqv]
        rcases List.mem_cons.mp hq with hqr | hqrest
        · subst hqr
          rw [mutateRecord_title, mutateRecord_url, mutateRecord_content, ht, hl, hs]
          exact ⟨rfl, rfl, rfl⟩
        · obtain ⟨ht', hl', hs'⟩ := hrest q hqrest
          rw [mutateRecord_title, mutateRecord_url, mutateRecord_content]
          exact ⟨ht', hl', hs'⟩
    obtain ⟨⟨blocks, warns⟩, hb⟩ :=
      buildFormattedText_ok_of_fields m true (uf.map Prod.snd) hvals
    exact ⟨_, dedup_format_build _ m true _ _ _ _ hd hb⟩

/-- Closed instance of `c3_amended_warning`: a record whose `raw_content` is
present but null warns once, naming its URL, the tail warnings come from the
(empty) remainder, the rendered body is empty, and the call succeeds. -/
theorem c3_amended_warning_witness :
    (∃ ext blocks2 ws2,
      dedupLoop [] [("un", ⟨some "Tn", some "un", some "sn", some "un", some "sn",
          some none⟩)] =
        Except.ok (([] : List SourceRecord),
          [("un", (⟨some "Tn", some "un", some "sn", some "un", some "sn",
            some none⟩ : SourceRecord))] ++ ext) ∧
      buildFormattedText 3 true (ext.map Prod.snd) = Except.ok (blocks2, ws2) ∧
      ["Warning: No raw_content found for source un"] =
        (if ((⟨some "Tn", some "un", some "sn", none, none, some none⟩ :
            SourceRecord).raw_content) = some none
          then ["Warning: No raw_content found for source " ++ "un"] else []) ++
          ws2 ∧
      ("Sources:\n\nSource Tn:\n===\nURL: un\n===\nMost relevant content from source: sn\n===\nFull source content limited to 3 tokens:" : String) =
        pyStrip ("Sources:\n\n" ++
          ((blockBase "Tn" "un" "sn" ++ "Full source content limited to " ++
            toString 3 ++ " tokens: " ++
            truncateRaw (3 * 4) (rawGot "un"
              ((⟨some "Tn", some "un", some "sn", none, none, some none⟩ :
                SourceRecord).raw_content)).1 ++ "\n\n") ++ blocks2))) ∧
    truncateRaw (3 * 4) (rawGot "un"
      ((⟨some "Tn", some "un", some "sn", none, none, some none⟩ :
        SourceRecord).raw_content)).1 = "" ∧
    (∃ res, deduplicate_and_format_sources
      [⟨some "Tn", some "un", some "sn", none, none, some none⟩] 3 true =
        Except.ok res) := by
  refine ⟨?_, ?_, ?_⟩
  · exact (c3_amended_warning 3
      ⟨some "Tn", some "un", some "sn", none, none, some none⟩ [] "Tn" "un" "sn"
      rfl rfl rfl).1
      ⟨"Sources:\n\nSource Tn:\n===\nURL: un\n===\nMost relevant content from source: sn\n===\nFull source content limited to 3 tokens:",
        ["Warning: No raw_content found for source un"],
        [⟨some "Tn", some "un", some "sn", some "un", some "sn", some none⟩]⟩ rfl
  · exact (c3_amended_warning 3
      ⟨some "Tn", some "un", some "sn", none, none, some none⟩ [] "Tn" "un" "sn"
      rfl rfl rfl).2.1 (Or.inr (Or.inl rfl))
  · exact (c3_amended_warning 3
      ⟨some "Tn", some "un", some "sn", none, none, some none⟩ [] "Tn" "un" "sn"
      rfl rfl rfl).2.2 (fun q hq => absurd hq (List.not_mem_nil q))

/-- C9 amended: a record missing `link`, or missing `snippet`, makes the call
raise the corresponding `KeyError` at the point of lookup (once the records
before it pass the dedup loop), and a record missing `title` raises
`KeyError: title` in the rendering loop provided it is retained — i.e. it is
the first occurrence of its URL; a duplicate dropped by deduplication never
has its title read (see the counterexample), and nothing is caught or
replaced by a default. -/
theorem c9_amended_fail_fast (m : Nat) (irc : Bool) (xs ys : List SourceRecord)
    (r : SourceRecord) :
    ((∀ q ∈ xs, q.link.isSome ∧ q.snippet.isSome) → r.link = none →
      deduplicate_and_format_sources (xs ++ r :: ys) m irc =
        Except.error ("KeyError: " ++ "link")) ∧
    ((∀ q ∈ xs, q.link.isSome ∧ q.snippet.isSome) → ∀ lk, r.link = some lk →
      r.snippet = none →
      deduplicate_and_format_sources (xs ++ r :: ys) m irc =
        Except.error ("KeyError: " ++ "snippet")) ∧
    ((∀ q ∈ xs, q.title.isSome ∧ q.link.isSome ∧ q.snippet.isSome) →
      (∀ q ∈ ys, q.link.isSome ∧ q.snippet.isSome) →
      ∀ u, r.link = some u → r.snippet.isSome → r.title = none →
      (∀ q ∈ xs, q.link ≠ some u) →
      deduplicate_and_format_sources (xs ++ r :: ys) m irc =
        Except.error ("KeyError: " ++ "title")) := by
  refine ⟨?_, ?_, ?_⟩
  · intro hxs hrl
    obtain ⟨a1, u1, hd1⟩ := dedupLoop_ok_of_fields xs [] hxs
    have hloop : dedupLoop (xs ++ r :: ys) [] = Except.error ("KeyError: " ++ "link") := by
      rw [dedupLoop_append]
      simp [hd1, dedupLoop_cons_err_link r ys u1 hrl]
    exact dedup_format_err_loop _ m irc _ hloop
  · intro hxs lk hrl hrs
    obtain ⟨a1, u1, hd1⟩ := dedupLoop_ok_of_fields xs [] hxs
    have hloop : dedupLoop (xs ++ r :: ys) [] =
        Except.error ("KeyError: " ++ "snippet") := by
      rw [dedupLoop_append]
      simp [hd1, dedupLoop_cons_err_snippet r ys u1 lk hrl hrs]
    exact dedup_format_err_loop _ m irc _ hloop
  · intro hxs hys u hrl hrs hrt hnew
    obtain ⟨sn, hsn⟩ := Option.isSome_iff_exists.mp hrs
    obtain ⟨a1, u1, hd1⟩ := dedupLoop_ok_of_fields xs []
      (fun q hq => ⟨(hxs q hq).2.1, (hxs q hq).2.2⟩)
    have hnotin : ¬ (List.lookup u u1).isSome = true := by
      intro hc
      obtain ⟨p, hp, hp1⟩ : ∃ p ∈ u1, p.1 = u := by
        have hmem := (lookup_isSome_iff u1 u).mp hc
        obtain ⟨p, hp, hp1⟩ := List.mem_map.mp hmem
        exact ⟨p, hp, hp1⟩
      rcases dedupLoop_entries xs [] a1 u1 p hd1 hp with hin | ⟨q, hq, hql, _⟩
      · simp at hin
      · rw [hp1] at hql
        exact hnew q hq hql
    obtain ⟨b1, u2, hd2⟩ := dedupLoop_ok_of_fields ys (u1 ++ [(u, mutateRecord r)]) hys
    have hloopR : dedupLoop (r :: ys) u1 =
        Except.ok (mutateRecord r :: b1, u2) := by
      rw [dedupLoop_cons_ok r ys u1 u sn hrl hsn, if_neg hnotin, hd2]
    have hloop : dedupLoop (xs ++ r :: ys) [] =
        Except.ok (a1 ++ mutateRecord r :: b1, u2) := by
      rw [dedupLoop_append]
      simp [hd1, hloopR]
    obtain ⟨ext, hext⟩ := dedupLoop_uniq_extends ys _ _ _ hd2
    have hext2 : u2 = u1 ++ [(u, mutateRecord r)] ++ ext := hext
    have hvals1 : ∀ v ∈ u1.map Prod.snd,
        v.title.isSome ∧ v.url.isSome ∧ v.content.isSome := by
      intro v hv
      obtain ⟨p, hp, hpv⟩ := List.mem_map.mp hv
      rcases dedupLoop_entries xs [] a1 u1 p hd1 hp with hin | ⟨q, hq, hql, hqv⟩
      · simp at hin
      · rw [← hpv, hqv, mutateRecord_title, mutateRecord_url, mutateRecord_content]
        obtain ⟨ht', hl', hs'⟩ := hxs q hq
        exact ⟨ht', hl', hs'⟩
    obtain ⟨⟨tb, wb⟩, hb1⟩ := buildFormattedText_ok_of_fields m irc (u1.map Prod.snd) hvals1
    have hbuild : buildFormattedText m irc (u2.map Prod.snd) =
        Except.error ("KeyError: " ++ "title") := by
      rw [hext2]
      have hmap : ((u1 ++ [(u, mutateRecord r)] ++ ext).map Prod.snd) =
          u1.map Prod.snd ++ (mutateRecord r :: ext.map Prod.snd) := by simp
      rw [hmap, buildFormattedText_append]
      have herr : buildFormattedText m irc (mutateRecord r :: ext.map Prod.snd) =
          Except.error ("KeyError: " ++ "title") := by
        have hft : formatBlock m irc (mutateRecord r) =
            Except.error ("KeyError: " ++ "title") :=
          formatBlock_err_title m irc (mutateRecord r)
            (by rw [mutateRecord_title]; exact hrt)
        simp [buildFormattedText, hft]
      simp [hb1, herr]
    exact dedup_format_err_build _ m irc _ _ _ hloop hbuild

/-- Closed instance of `c9_amended_fail_fast`: single-record inputs missing
`link`, `snippet`, and `title` raise the three corresponding key errors. -/
theorem c9_amended_fail_fast_witness :
    deduplicate_and_format_sources [⟨some "Ta", none, some "sa", none, none, none⟩]
      1 true = Except.error ("KeyError: " ++ "link") ∧
    deduplicate_and_format_sources [⟨some "Tb", some "ub", none, none, none, none⟩]
      1 true = Except.error ("KeyError: " ++ "snippet") ∧
    deduplicate_and_format_sources [⟨none, some "uc", some "sc", none, none, none⟩]
      1 true = Except.error ("KeyError: " ++ "title") := by
  refine ⟨?_, ?_, ?_⟩
  · exact (c9_amended_fail_fast 1 true [] []
      ⟨some "Ta", none, some "sa", none, none, none⟩).1
      (fun q hq => absurd hq (List.not_mem_nil q)) rfl
  · exact (c9_amended_fail_fast 1 true [] []
      ⟨some "Tb", some "ub", none, none, none, none⟩).2.1
      (fun q hq => absurd hq (List.not_mem_nil q)) "ub" rfl rfl
  · exact (c9_amended_fail_fast 1 true [] []
      ⟨none, some "uc", some "sc", none, none, none⟩).2.2
      (fun q hq => absurd hq (List.not_mem_nil q))
      (fun q hq => absurd hq (List.not_mem_nil q)) "uc" rfl rfl rfl
      (fun q hq => absurd hq (List.not_mem_nil q))

/-- With titles and urls present, the bullet lines are one per record. -/
theorem bulletLines_ok (rs : List SourceRecord)
    (h : ∀ r ∈ rs, r.title.isSome ∧ r.url.isSome) :
    bulletLines rs = Except.ok (rs.map
      (fun r => "* " ++ r.title.getD "" ++ " : " ++ r.url.getD "")) := by
  induction rs with
  | nil => rfl
  | cons r rest ih =>
    obtain ⟨ht', hu'⟩ := h r (List.mem_cons_self r rest)
    obtain ⟨t, ht⟩ := Option.isSome_iff_exists.mp ht'
    obtain ⟨u, hu⟩ := Option.isSome_iff_exists.mp hu'
    simp [bulletLines, getKey, ht, hu,
      ih (fun q hq => h q (List.mem_cons_of_mem _ hq))]

/-- The `go` accumulator of `String.intercalate` against the spec's join. -/
theorem intercalate_go_bullet (ps : List (String × String)) :
    ∀ acc : String, String.intercalate.go acc "\n"
        (ps.map (fun p => "* " ++ p.1 ++ " : " ++ p.2)) =
      acc ++ (match ps with
        | [] => ""
        | _ :: _ => "\n" ++ bulletLinesJoin ps) := by
  induction ps with
  | nil => intro acc; simp [String.intercalate.go]
  | cons p rest ih =>
    intro acc
    simp only [List.map_cons, String.intercalate.go, ih]
    cases rest with
    | nil => simp [bulletLinesJoin, String.append_assoc]
    | cons q qs => simp [bulletLinesJoin, String.append_assoc]

/-- Joining the bullet lines with `"\n"` gives the spec's newline join. -/
theorem intercalate_bullet (ps : List (String × String)) :
    String.intercalate "\n" (ps.map (fun p => "* " ++ p.1 ++ " : " ++ p.2)) =
      bulletLinesJoin ps := by
  cases ps with
  | nil => rfl
  | cons p rest =>
    obtain ⟨a, b⟩ := p
    simp only [List.map_cons, String.intercalate, intercalate_go_bullet]
    cases rest with
    | nil => simp [bulletLinesJoin, String.append_empty]
    | cons q qs =>
      obtain ⟨qa, qb⟩ := q
      simp [bulletLinesJoin, String.append_assoc]

/-- C7: with titles and urls present, `format_sources` returns one line per
record in input order, each `* title : url`, newline-joined — no
deduplication, no truncation — and on the two-record example it returns
exactly the claimed string. -/
theorem c7_bullet_sources (rs : List SourceRecord)
    (h : ∀ r ∈ rs, r.title.isSome ∧ r.url.isSome) :
    format_sources rs = Except.ok (bulletLinesJoin
      (rs.map (fun r => (r.title.getD "", r.url.getD "")))) ∧
    format_sources
      [⟨some "A", none, none, some "u1", none, none⟩,
       ⟨some "B", none, none, some "u2", none, none⟩] =
      Except.ok "* A : u1\n* B : u2" := by
  constructor
  · simp only [format_sources, bulletLines_ok rs h]
    rw [← intercalate_bullet, List.map_map]
    rfl
  · rfl

/-- Closed instance of `c7_bullet_sources` at a one-record input. -/
theorem c7_bullet_sources_witness :
    format_sources [⟨some "W", none, none, some "uw", none, none⟩] =
      Except.ok (bulletLinesJoin [("W", "uw")]) :=
  (c7_bullet_sources [⟨some "W", none, none, some "uw", none, none⟩] (by decide)).1
